import Mathlib

/-!
Shallow embedding of the Nezha2Mowan repository (src/nezha.py, src/player.py):
a video-to-character-art compressor and a terminal player for its container
format.  Pure string manipulation is modelled on `List Char` (one entry per
Python code point); Python integers are `Nat`/`Int`; the floating-point frame
rate read from the video source is modelled as `ℚ` (exact); fallible code
returns `Option`/`Except`.
-/

namespace Nezha

/-! ## Python string primitives -/

/-- The whitespace code points stripped by Python `str.strip()`
(CPython `Py_UNICODE_ISSPACE`). -/
def pyWhitespace : List Char :=
  ['\t', '\n', '\x0b', '\x0c', '\r', ' ',
   '\x1c', '\x1d', '\x1e', '\x1f', '\x85', '\xa0',
   ' ', ' ', ' ', ' ', ' ', ' ', ' ',
   ' ', ' ', ' ', ' ', ' ',
   ' ', ' ', ' ', ' ', '　']

/-- Whether a character is Python whitespace. -/
def isPyWS (c : Char) : Bool := pyWhitespace.contains c

/-- Python `str.strip()`: remove leading and trailing whitespace. -/
def pyStrip (l : List Char) : List Char :=
  ((l.dropWhile isPyWS).reverse.dropWhile isPyWS).reverse

/-- Python `str.split(sep)` for a one-character separator: always returns a
non-empty list of (possibly empty) fields. -/
def splitOnChar (sep : Char) : List Char → List (List Char)
  | [] => [[]]
  | c :: rest =>
      let r := splitOnChar sep rest
      if c = sep then [] :: r else (c :: r.headD []) :: r.tail

/-- The character for a decimal digit value. -/
def digitChar (d : Nat) : Char := Char.ofNat (48 + d)

/-- Whether a character is an ASCII decimal digit. -/
def isDigitChar (c : Char) : Bool := decide (48 ≤ c.toNat) && decide (c.toNat ≤ 57)

/-- Numeric value of an ASCII decimal digit character. -/
def digitVal (c : Char) : Nat := c.toNat - 48

/-- Value of a most-significant-first run of decimal digit characters. -/
def parseNatDigits (l : List Char) : Nat := l.foldl (fun a c => 10 * a + digitVal c) 0

/-- Python `int(s)` on a decimal string literal: strips whitespace, accepts an
optional sign followed by at least one ASCII digit, and fails (`ValueError`,
modelled as `none`) otherwise. -/
def parseIntList (l : List Char) : Option Int :=
  match pyStrip l with
  | [] => none
  | c :: rest =>
      if c = '-' then
        if rest ≠ [] ∧ rest.all isDigitChar then some (-(parseNatDigits rest : Int)) else none
      else if c = '+' then
        if rest ≠ [] ∧ rest.all isDigitChar then some ((parseNatDigits rest : Int)) else none
      else
        if (c :: rest).all isDigitChar then some ((parseNatDigits (c :: rest) : Int)) else none

/-- Base-10 digits of a natural number, least significant first, computed
with explicit fuel so that the kernel can evaluate it; with fuel ≥ n it
agrees with `Nat.digits 10 n`. -/
def natDigitsFuel : Nat → Nat → List Nat
  | _, 0 => []
  | 0, _ + 1 => []
  | fuel + 1, n + 1 => (n + 1) % 10 :: natDigitsFuel fuel ((n + 1) / 10)

/-- Decimal representation of a natural number, as Python `str` renders it
(`str(0) = "0"`, otherwise most-significant digit first). -/
def natRepr (n : Nat) : List Char :=
  if n = 0 then ['0'] else (natDigitsFuel n n).reverse.map digitChar

/-- Decimal representation of an integer, as Python `str` renders it. -/
def intRepr (i : Int) : List Char :=
  if i < 0 then '-' :: natRepr i.natAbs else natRepr i.toNat

/-- Python `int()` applied to an exact rational (truncation toward zero),
modelling `int(f)` on the float frame rate. -/
def pyIntQ (q : ℚ) : Int := if q < 0 then -(Int.floor (-q)) else Int.floor q

/-! ## Compressor (src/nezha.py) -/

/-- One pixel in OpenCV BGR channel order: `(blue, green, red)`. -/
abbrev Pixel := Nat × Nat × Nat

/-- A raw video frame: rows of pixels, as delivered by `cap.read()`. -/
abbrev RawFrame := List (List Pixel)

/-- The compressor object built by `VideoAsciiCompressor.__init__`
(src/nezha.py lines 13-18): it stores the parameters unchanged. -/
structure VideoAsciiCompressor where
  w : Nat
  h : Nat
  chars : List Char
  n_chars : Nat

/-- `VideoAsciiCompressor.__init__` (src/nezha.py lines 13-18): records
width, height, the charset and its length.  The source performs no
validation of any argument. -/
def VideoAsciiCompressor.init (width height : Nat) (charset : List Char) :
    VideoAsciiCompressor :=
  ⟨width, height, charset, charset.length⟩

/-- Luminance of one source pixel, modelling the external collaborator
`cv2.cvtColor(frame, cv2.COLOR_BGR2GRAY)` with the standard BT.601 weights
`Y = 0.299 R + 0.587 G + 0.114 B` in exact fixed-point with rounding. -/
def grayAt (frame : RawFrame) (y x : Nat) : Nat :=
  let p := (frame.getD y []).getD x (0, 0, 0)
  (114 * p.1 + 587 * p.2.1 + 299 * p.2.2 + 500) / 1000

/-- The glyph-index computation of `_process_frame` (src/nezha.py lines
30-31): `indices = (v * (n_chars - 1) / 255).astype(int)` followed by
`np.clip(indices, 0, n_chars - 1)`.  For `v ≤ 255` the float32 product and
quotient are exact enough that `astype(int)` equals the mathematical floor,
so the index is `⌊v * (n_chars - 1) / 255⌋` clamped above by `n_chars - 1`
(the lower clamp at 0 is implicit in `Nat`). -/
def quantIndex (n_chars v : Nat) : Nat :=
  min (v * (n_chars - 1) / 255) (n_chars - 1)

/-- Python `'|'.join(rows)` (src/nezha.py line 37). -/
def pyJoin (sep : List Char) : List (List Char) → List Char
  | [] => []
  | r :: rs =>
      match rs with
      | [] => r
      | _ :: _ => r ++ sep ++ pyJoin sep rs

/-- The encoded line of one frame (src/nezha.py line 37):
`'|'.join(rows) + '|'`. -/
def encFrameRows (rows : List (List Char)) : List Char :=
  pyJoin ['|'] rows ++ ['|']

/-- `_process_frame` (src/nezha.py lines 20-37): grayscale reduction,
nearest-neighbour resize to `w × h` (modelling the external
`cv2.resize(..., INTER_NEAREST)` by source index `out · src / dst`),
glyph-index quantization, glyph lookup, and row joining.  `cv2.cvtColor`
raises `cv2.error` on an empty input matrix, which is the per-frame failure
mode; this is modelled by the `Except.error` branch. -/
def processFrame (comp : VideoAsciiCompressor) (frame : RawFrame) :
    Except String (List Char) :=
  if frame.length = 0 ∨ (frame.headD []).length = 0 then
    Except.error "cv2.error: empty frame"
  else
    let srcH := frame.length
    let srcW := (frame.headD []).length
    let rows := (List.range comp.h).map (fun y =>
      (List.range comp.w).map (fun x =>
        let v := grayAt frame (y * srcH / comp.h) (x * srcW / comp.w)
        comp.chars.getD (quantIndex comp.n_chars v) ' '))
    Except.ok (encFrameRows rows)

/-- The frame rate written to the container header (src/nezha.py lines 50
and 79): `int(min(5, cap.get(cv2.CAP_PROP_FPS)))`, where the native rate is
an exact rational. -/
def storedRate (fps : ℚ) : Int := pyIntQ (min 5 fps)

/-- The header line written by `compress` (src/nezha.py line 79):
`f"{self.w},{self.h},{int(fps)},{self.chars}"`. -/
def headerLine (comp : VideoAsciiCompressor) (rate : Int) : List Char :=
  natRepr comp.w ++ [','] ++ natRepr comp.h ++ [','] ++ intRepr rate
    ++ [','] ++ comp.chars

/-! ## Worker pool and compress (src/nezha.py lines 39-81) -/

/-- The external video source as seen by `compress` via `cv2.VideoCapture`:
whether it opens, its reported native frame rate, its reported frame count,
and the stream of frames `cap.read()` can deliver in order (reading stops
early when the stream ends). -/
structure VideoSource where
  openedOk : Bool
  fps : ℚ
  frameCount : Nat
  frames : List RawFrame

/-- One completion event of the thread pool: the worker for job `i`
finishes and its result is stored in the slot of future `i`.  Futures are
per-index, so a completion writes only its own slot. -/
def poolStep (comp : VideoAsciiCompressor) (frames : List RawFrame)
    (tbl : List (Option (Except String (List Char)))) (i : Nat) :
    List (Option (Except String (List Char))) :=
  match frames[i]? with
  | some fr => tbl.set i (some (processFrame comp fr))
  | none => tbl

/-- The future table after the workers complete the submitted jobs in the
completion order `sched` (src/nezha.py line 72 submits one job per frame;
workers may finish in any order). -/
def poolResults (comp : VideoAsciiCompressor) (frames : List RawFrame)
    (sched : List Nat) : List (Option (Except String (List Char))) :=
  sched.foldl (poolStep comp frames) (List.replicate frames.length none)

/-- Collecting `future.result()` in submission order (src/nezha.py lines
73-74).  A `none` slot is a job that never completes (`result()` would block
forever — impossible in reality, represented by the outer `none`); an
`Except.error` slot re-raises at its position, aborting the collection. -/
def awaitAll : List (Option (Except String (List Char))) →
    Option (Except String (List (List Char)))
  | [] => some (Except.ok [])
  | none :: _ => none
  | some (Except.error e) :: _ => some (Except.error e)
  | some (Except.ok line) :: rest =>
      (awaitAll rest).map (fun r => r.map (fun ls => line :: ls))

/-- `compress` (src/nezha.py lines 39-81), parametrized by the completion
order `sched` of the worker pool.  The result is the sequence of lines of
the output file on success (header first), the raised exception otherwise:
`IOError` if the source does not open, `ValueError` from
`ThreadPoolExecutor` if `threads = 0`, and any per-frame quantization error
re-raised by `future.result()`.  The file is written only after every
result has been collected. -/
def compressRun (comp : VideoAsciiCompressor) (src : VideoSource)
    (threads maxFrames : Nat) (sched : List Nat) :
    Option (Except String (List (List Char))) :=
  if src.openedOk = false then some (Except.error "IOError: cannot open video")
  else if threads = 0 then some (Except.error "ValueError: max_workers must be greater than 0")
  else
    let total := min maxFrames src.frameCount
    let frames := src.frames.take total
    (awaitAll (poolResults comp frames sched)).map (fun r =>
      r.map (fun lines => headerLine comp (storedRate src.fps) :: lines))

/-- `Except.ok`-ness as a boolean. -/
def exceptIsOk {ε α : Type} : Except ε α → Bool
  | Except.ok _ => true
  | Except.error _ => false

/-! ## Player (src/player.py) -/

/-- Header parsing in `play_ascii_movie` (src/player.py lines 8-10):
`lines[0].strip().split(',')` followed by `int()` of the first three
fields.  `none` models the uncaught `IndexError`/`ValueError` when fewer
than three fields are present or a field is not an integer literal; the
fourth (charset) field is never examined. -/
def decodeHeader (line : List Char) : Option (Int × Int × Int) :=
  match splitOnChar ',' (pyStrip line) with
  | a :: b :: c :: _ =>
      match parseIntList a, parseIntList b, parseIntList c with
      | some w, some h, some r => some (w, h, r)
      | _, _, _ => none
  | _ => none

/-- The row-slicing loop of `play_ascii_movie` (src/player.py lines 24-30):
for each `j < height`, if `start = j * (width + 1)` is inside the line, the
row `frame[start : start + width]` is printed (Python slicing clamps at the
end of the string); rows whose start lies past the end are skipped. -/
def renderFrame (width height : Nat) (frame : List Char) : List (List Char) :=
  (List.range height).filterMap (fun j =>
    if j * (width + 1) < frame.length then
      some ((frame.drop (j * (width + 1))).take width)
    else none)

/-- The decoding part of `play_ascii_movie` (src/player.py lines 5-14 and
24-30): parse the header from the first line, take every subsequent line
that is non-empty after stripping as one encoded frame, and slice each into
rows.  Negative header fields are outside the modelled domain (the `toNat`
coercions mirror `range(height)` for the non-negative case). -/
def decodeMovie (lines : List (List Char)) :
    Option (Int × Int × Int × List (List (List Char))) :=
  match lines with
  | [] => none
  | hd :: tl =>
      match decodeHeader hd with
      | none => none
      | some (w, h, r) =>
          let frames := (tl.map pyStrip).filter (fun l => decide (l ≠ []))
          some (w, h, r, frames.map (fun f => renderFrame w.toNat h.toNat f))

/-- The observable behaviour of `play_ascii_movie` (src/player.py lines
4-30): everything it prints is a function of the parsed width, height and
frame rate and of the stripped frame lines; `fps = 0` makes
`frame_delay = 1.0 / fps` raise `ZeroDivisionError` before anything is
rendered (modelled as `none`). -/
def playOutput (lines : List (List Char)) :
    Option (Int × Int × Int × List (List (List Char))) :=
  match decodeMovie lines with
  | none => none
  | some (w, h, r, frames) => if r = 0 then none else some (w, h, r, frames)

/-- The container file written by `compress` (src/nezha.py lines 77-81) for
a movie given by its header data and the per-frame glyph grids: the header
line followed by one encoded line per frame. -/
def encodeFile (w h rate : Nat) (charset : List Char)
    (grids : List (List (List Char))) : List (List Char) :=
  (natRepr w ++ [','] ++ natRepr h ++ [','] ++ natRepr rate ++ [','] ++ charset)
    :: grids.map encFrameRows

/-! ## Concrete sample data used in witnesses and counterexamples -/

/-- A 1-by-1 compressor over the two-glyph charset "ab". -/
def sampleComp : VideoAsciiCompressor := VideoAsciiCompressor.init 1 1 ['a', 'b']

/-- A frame holding a single black pixel. -/
def blackFrame : RawFrame := [[(0, 0, 0)]]

/-- A frame holding a single white pixel. -/
def whiteFrame : RawFrame := [[(255, 255, 255)]]

/-- A frame with no pixel data: the grayscale conversion raises on it. -/
def emptyFrame : RawFrame := []

/-- A well-behaved two-frame source at a native rate of 5 fps. -/
def sampleSrc : VideoSource := ⟨true, 5, 2, [blackFrame, whiteFrame]⟩

/-- A source whose second frame is corrupt. -/
def badSrc : VideoSource := ⟨true, 5, 2, [blackFrame, emptyFrame]⟩

/-- A source reporting a native rate of half a frame per second. -/
def halfRateSrc : VideoSource := ⟨true, 1/2, 1, [blackFrame]⟩

/-! ## Helper lemmas: string primitives -/

lemma splitOnChar_ne_nil (sep : Char) (l : List Char) : splitOnChar sep l ≠ [] := by
  cases l with
  | nil => simp [splitOnChar]
  | cons c rest =>
      simp only [splitOnChar]
      split <;> simp

lemma splitOnChar_of_not_mem (sep : Char) {l : List Char} (h : sep ∉ l) :
    splitOnChar sep l = [l] := by
  induction l with
  | nil => rfl
  | cons c rest ih =>
      have hc : c ≠ sep := fun hc => h (hc ▸ List.mem_cons_self c rest)
      have hr : sep ∉ rest := fun hr => h (List.mem_cons_of_mem c hr)
      simp only [splitOnChar, if_neg hc, ih hr]
      rfl

lemma splitOnChar_append_sep (sep : Char) {xs : List Char} (ys : List Char)
    (h : sep ∉ xs) :
    splitOnChar sep (xs ++ sep :: ys) = xs :: splitOnChar sep ys := by
  induction xs with
  | nil => simp [splitOnChar]
  | cons c rest ih =>
      have hc : c ≠ sep := fun hc => h (hc ▸ List.mem_cons_self c rest)
      have hr : sep ∉ rest := fun hr => h (List.mem_cons_of_mem c hr)
      simp only [List.cons_append, splitOnChar, List.append_eq, if_neg hc, ih hr]
      rfl

lemma pyStrip_eq_self {l : List Char} (hne : l ≠ [])
    (h0 : isPyWS (l.headD ' ') = false) (h1 : isPyWS (l.getLastD ' ') = false) :
    pyStrip l = l := by
  obtain ⟨c, rest, rfl⟩ := List.exists_cons_of_ne_nil hne
  simp only [List.headD_cons] at h0
  have hd : List.dropWhile isPyWS (c :: rest) = c :: rest := by
    simp [List.dropWhile_cons, h0]
  unfold pyStrip
  rw [hd]
  cases hr : (c :: rest).reverse with
  | nil => exact absurd (List.reverse_eq_nil_iff.mp hr) (List.cons_ne_nil c rest)
  | cons b t =>
      have hb : (c :: rest).getLast? = some b := by
        rw [← List.head?_reverse, hr, List.head?_cons]
      have hbl : isPyWS b = false := by
        rw [List.getLastD_eq_getLast?, hb] at h1
        simpa using h1
      have hdw : List.dropWhile isPyWS (b :: t) = b :: t := by
        simp [List.dropWhile_cons, hbl]
      have hrr : (b :: t).reverse = c :: rest := by
        rw [← hr, List.reverse_reverse]
      rw [hdw, hrr]

/-! ## Helper lemmas: decimal digits -/

lemma digitChar_spec (d : Nat) (hd : d < 10) :
    digitVal (digitChar d) = d ∧ isDigitChar (digitChar d) = true ∧
      isPyWS (digitChar d) = false ∧ digitChar d ≠ ',' ∧
      digitChar d ≠ '-' ∧ digitChar d ≠ '+' ∧ digitChar d ≠ '|' := by
  interval_cases d <;> exact ⟨by decide, by decide, by decide, by decide,
    by decide, by decide, by decide⟩

lemma foldl_digits_eq (ds : List Nat) (hds : ∀ d ∈ ds, d < 10) :
    parseNatDigits (ds.reverse.map digitChar) = Nat.ofDigits 10 ds := by
  induction ds with
  | nil => rfl
  | cons d t ih =>
      have hd : d < 10 := hds d (List.mem_cons_self d t)
      have ht : ∀ x ∈ t, x < 10 := fun x hx => hds x (List.mem_cons_of_mem d hx)
      have hfold : parseNatDigits (t.reverse.map digitChar ++ [digitChar d]) =
          10 * parseNatDigits (t.reverse.map digitChar) + digitVal (digitChar d) := by
        unfold parseNatDigits
        rw [List.foldl_append]
        rfl
      simp only [List.reverse_cons, List.map_append, List.map_cons, List.map_nil]
      rw [hfold, ih ht, (digitChar_spec d hd).1, Nat.ofDigits_cons]
      ring

lemma natDigitsFuel_eq_digits : ∀ (fuel n : Nat), n ≤ fuel →
    natDigitsFuel fuel n = Nat.digits 10 n := by
  intro fuel
  induction fuel with
  | zero =>
      intro n hn
      interval_cases n
      simp [natDigitsFuel, Nat.digits_zero]
  | succ fuel ih =>
      intro n hn
      cases n with
      | zero => simp [natDigitsFuel, Nat.digits_zero]
      | succ n =>
          have hdiv : (n + 1) / 10 < n + 1 :=
            Nat.div_lt_self (Nat.succ_pos n) (by norm_num)
          rw [natDigitsFuel, ih ((n + 1) / 10) (by omega),
            Nat.digits_def' (by norm_num : 1 < 10) (Nat.succ_pos n)]

lemma natRepr_eq_digits (n : Nat) :
    natRepr n = if n = 0 then ['0'] else (Nat.digits 10 n).reverse.map digitChar := by
  unfold natRepr
  rw [natDigitsFuel_eq_digits n n le_rfl]

lemma mem_natRepr {c : Char} {n : Nat} (hc : c ∈ natRepr n) :
    ∃ d, d < 10 ∧ c = digitChar d := by
  rw [natRepr_eq_digits] at hc
  by_cases hn : n = 0
  · rw [if_pos hn] at hc
    simp only [List.mem_singleton] at hc
    exact ⟨0, by norm_num, by rw [hc]; rfl⟩
  · rw [if_neg hn] at hc
    obtain ⟨d, hdmem, hdeq⟩ := List.mem_map.mp hc
    exact ⟨d, Nat.digits_lt_base (by norm_num) (List.mem_reverse.mp hdmem),
      hdeq.symm⟩

lemma natRepr_chars {c : Char} {n : Nat} (hc : c ∈ natRepr n) :
    isDigitChar c = true ∧ isPyWS c = false ∧ c ≠ ',' ∧ c ≠ '-' ∧
      c ≠ '+' ∧ c ≠ '|' := by
  obtain ⟨d, hd, rfl⟩ := mem_natRepr hc
  obtain ⟨-, h2, h3, h4, h5, h6, h7⟩ := digitChar_spec d hd
  exact ⟨h2, h3, h4, h5, h6, h7⟩

lemma natRepr_ne_nil (n : Nat) : natRepr n ≠ [] := by
  rw [natRepr_eq_digits]
  by_cases hn : n = 0
  · simp [hn]
  · rw [if_neg hn]
    simp only [ne_eq, List.map_eq_nil_iff, List.reverse_eq_nil_iff]
    exact Nat.digits_ne_nil_iff_ne_zero.mpr hn

lemma parseNatDigits_natRepr (n : Nat) : parseNatDigits (natRepr n) = n := by
  rw [natRepr_eq_digits]
  by_cases hn : n = 0
  · subst hn; rfl
  · rw [if_neg hn, foldl_digits_eq _ (fun d hd => Nat.digits_lt_base (by norm_num) hd),
      Nat.ofDigits_digits]

lemma pyStrip_natRepr (n : Nat) : pyStrip (natRepr n) = natRepr n := by
  refine pyStrip_eq_self (natRepr_ne_nil n) ?_ ?_
  · cases hr : natRepr n with
    | nil => exact absurd hr (natRepr_ne_nil n)
    | cons c rest =>
        have : c ∈ natRepr n := by rw [hr]; exact List.mem_cons_self c rest
        simpa using (natRepr_chars this).2.1
  · have hmem : (natRepr n).getLastD ' ' ∈ natRepr n := by
      cases hr : natRepr n with
      | nil => exact absurd hr (natRepr_ne_nil n)
      | cons c rest =>
          rw [List.getLastD_eq_getLast? , List.getLast?_eq_getLast _ (by simp)]
          simp only [Option.getD_some]
          exact List.getLast_mem _
    exact (natRepr_chars hmem).2.1

lemma parseIntList_natRepr (n : Nat) : parseIntList (natRepr n) = some (n : Int) := by
  cases hr : natRepr n with
  | nil => exact absurd hr (natRepr_ne_nil n)
  | cons c rest =>
      have hcmem : c ∈ natRepr n := by rw [hr]; exact List.mem_cons_self c rest
      obtain ⟨-, hneg, hpos, -⟩ := (natRepr_chars hcmem).2.2
      have hall : (c :: rest).all isDigitChar = true := by
        rw [← hr, List.all_eq_true]
        exact fun x hx => (natRepr_chars hx).1
      have hstrip := pyStrip_natRepr n
      rw [hr] at hstrip
      unfold parseIntList
      rw [hstrip]
      simp only [if_neg hneg, if_neg hpos, if_pos hall]
      rw [← hr, parseNatDigits_natRepr]

/-! ## Helper lemmas: worker pool -/

lemma poolStep_length (comp : VideoAsciiCompressor) (frames : List RawFrame)
    (tbl : List (Option (Except String (List Char)))) (i : Nat) :
    (poolStep comp frames tbl i).length = tbl.length := by
  unfold poolStep
  cases frames[i]? <;> simp

lemma poolFold_length (comp : VideoAsciiCompressor) (frames : List RawFrame) :
    ∀ (sched : List Nat) (tbl : List (Option (Except String (List Char)))),
      (sched.foldl (poolStep comp frames) tbl).length = tbl.length := by
  intro sched
  induction sched with
  | nil => intro tbl; rfl
  | cons j rest ih =>
      intro tbl
      rw [List.foldl_cons, ih, poolStep_length]

lemma poolFold_getD (comp : VideoAsciiCompressor) (frames : List RawFrame) :
    ∀ (sched : List Nat) (tbl : List (Option (Except String (List Char)))),
      tbl.length = frames.length → ∀ i : Nat, i < frames.length →
      (sched.foldl (poolStep comp frames) tbl).getD i none =
        if i ∈ sched then some (processFrame comp (frames.getD i []))
        else tbl.getD i none := by
  intro sched
  induction sched with
  | nil =>
      intro tbl htl i hi
      simp
  | cons j rest ih =>
      intro tbl htl i hi
      rw [List.foldl_cons, ih _ (by rw [poolStep_length]; exact htl) i hi]
      have hi2 : i < tbl.length := by rw [htl]; exact hi
      by_cases hmem : i ∈ rest
      · simp [hmem, List.mem_cons]
      · rw [if_neg hmem]
        by_cases hij : i = j
        · subst hij
          have hfr : frames[i]? = some (frames.getD i []) := by
            rw [List.getElem?_eq_getElem hi, List.getD_eq_getElem _ _ hi]
          unfold poolStep
          rw [hfr]
          have hset : i < (tbl.set i (some (processFrame comp (frames.getD i [])))).length := by
            rw [List.length_set]; exact hi2
          rw [List.getD_eq_getElem _ _ hset, List.getElem_set]
          simp [List.mem_cons]
        · have hstep : (poolStep comp frames tbl j).getD i none = tbl.getD i none := by
            unfold poolStep
            cases hj : frames[j]? with
            | none => rfl
            | some fr =>
                have hset : i < (tbl.set j (some (processFrame comp fr))).length := by
                  rw [List.length_set]; exact hi2
                rw [List.getD_eq_getElem _ _ hset, List.getD_eq_getElem _ _ hi2,
                  List.getElem_set, if_neg (fun h => hij h.symm)]
          rw [hstep, if_neg (by simp [List.mem_cons, hij, hmem])]

lemma poolResults_eq (comp : VideoAsciiCompressor) (frames : List RawFrame)
    (sched : List Nat) (hperm : sched.Perm (List.range frames.length)) :
    poolResults comp frames sched =
      frames.map (fun fr => some (processFrame comp fr)) := by
  have hlen : (poolResults comp frames sched).length = frames.length := by
    unfold poolResults
    rw [poolFold_length, List.length_replicate]
  apply List.ext_getElem
  · rw [hlen, List.length_map]
  · intro i h1 h2
    have hi : i < frames.length := by rw [hlen] at h1; exact h1
    have hgd : (poolResults comp frames sched).getD i none =
        some (processFrame comp (frames.getD i [])) := by
      unfold poolResults
      rw [poolFold_getD comp frames sched _ (List.length_replicate _ _) i hi,
        if_pos ((hperm.mem_iff).mpr (List.mem_range.mpr hi))]
    rw [List.getD_eq_getElem _ _ h1] at hgd
    rw [hgd, List.getElem_map, List.getD_eq_getElem _ _ hi]

/-! ## Helper lemmas: result collection -/

lemma awaitAll_all_ok :
    ∀ (l : List RawFrame) (f : RawFrame → Except String (List Char)),
      (∀ fr ∈ l, exceptIsOk (f fr) = true) →
      ∃ lines, awaitAll (l.map (fun fr => some (f fr))) = some (Except.ok lines) ∧
        lines.map Except.ok = l.map f := by
  intro l f
  induction l with
  | nil => intro h; exact ⟨[], rfl, rfl⟩
  | cons fr t ih =>
      intro h
      have hfr := h fr (List.mem_cons_self fr t)
      cases hf : f fr with
      | error e => rw [hf] at hfr; simp [exceptIsOk] at hfr
      | ok s =>
          obtain ⟨lines, hl, hmap⟩ := ih (fun x hx => h x (List.mem_cons_of_mem fr hx))
          refine ⟨s :: lines, ?_, ?_⟩
          · simp only [List.map_cons, hf]
            simp [awaitAll, hl]
            rfl
          · simp only [List.map_cons, hmap, hf]

lemma awaitAll_first_error :
    ∀ (l : List RawFrame) (f : RawFrame → Except String (List Char)) (i : Nat)
      (e : String), i < l.length →
      (∀ j, j < i → exceptIsOk (f (l.getD j [])) = true) →
      f (l.getD i []) = Except.error e →
      awaitAll (l.map (fun fr => some (f fr))) = some (Except.error e) := by
  intro l f
  induction l with
  | nil =>
      intro i e hi
      simp at hi
  | cons fr t ih =>
      intro i e hi hok herr
      cases i with
      | zero =>
          rw [List.getD_cons_zero] at herr
          simp [awaitAll, herr]
      | succ i =>
          have h0 : exceptIsOk (f fr) = true := by
            have h00 := hok 0 (Nat.succ_pos i)
            rwa [List.getD_cons_zero] at h00
          cases hf : f fr with
          | error e2 => rw [hf] at h0; simp [exceptIsOk] at h0
          | ok s =>
              have hrec := ih i e (by simpa using hi)
                (fun j hj => by
                  have := hok (j + 1) (by omega)
                  rwa [List.getD_cons_succ] at this)
                (by rwa [List.getD_cons_succ] at herr)
              simp [awaitAll, hf, hrec]
              rfl

lemma compressRun_open (comp : VideoAsciiCompressor) (src : VideoSource)
    (threads maxFrames : Nat) (sched : List Nat)
    (hop : src.openedOk = true) (ht : threads ≠ 0) :
    compressRun comp src threads maxFrames sched =
      (awaitAll (poolResults comp (src.frames.take (min maxFrames src.frameCount))
          sched)).map
        (fun r => r.map (fun lines =>
          headerLine comp (storedRate src.fps) :: lines)) := by
  unfold compressRun
  simp [hop, ht]

/-! ## Helper lemmas: frame encoding and row slicing -/

lemma encFrameRows_eq_flatten :
    ∀ (rows : List (List Char)), rows ≠ [] →
      encFrameRows rows = (rows.map (fun r => r ++ ['|'])).flatten := by
  intro rows
  induction rows with
  | nil => intro hne; exact absurd rfl hne
  | cons r rs ih =>
      intro _
      cases rs with
      | nil => simp [encFrameRows, pyJoin]
      | cons r2 rs2 =>
          have hne2 : r2 :: rs2 ≠ [] := List.cons_ne_nil r2 rs2
          have hlhs : encFrameRows (r :: r2 :: rs2) =
              r ++ ['|'] ++ pyJoin ['|'] (r2 :: rs2) ++ ['|'] := rfl
          have hrhs : encFrameRows (r2 :: rs2) =
              pyJoin ['|'] (r2 :: rs2) ++ ['|'] := rfl
          rw [List.map_cons, List.flatten_cons, ← ih hne2, hlhs, hrhs]
          simp [List.append_assoc]

lemma flatten_rows_length (w : Nat) :
    ∀ (rows : List (List Char)), (∀ r ∈ rows, r.length = w) →
      ((rows.map (fun r => r ++ ['|'])).flatten).length = rows.length * (w + 1) := by
  intro rows
  induction rows with
  | nil => intro; simp
  | cons r rs ih =>
      intro hlen
      have hr : r.length = w := hlen r (List.mem_cons_self r rs)
      have hrs := ih (fun x hx => hlen x (List.mem_cons_of_mem r hx))
      simp only [List.map_cons, List.flatten_cons, List.length_append, hrs,
        List.length_cons, hr]
      simp
      ring

lemma flatten_rows_drop (w : Nat) :
    ∀ (rows : List (List Char)) (j : Nat), (∀ r ∈ rows, r.length = w) →
      ((rows.map (fun r => r ++ ['|'])).flatten).drop (j * (w + 1)) =
        ((rows.drop j).map (fun r => r ++ ['|'])).flatten := by
  intro rows
  induction rows with
  | nil => intro j hlen; simp
  | cons r rs ih =>
      intro j hlen
      cases j with
      | zero => simp
      | succ j =>
          have hlr : (r ++ ['|']).length = w + 1 := by
            rw [List.length_append, hlen r (List.mem_cons_self r rs)]
            rfl
          have harith : (j + 1) * (w + 1) = (w + 1) + j * (w + 1) := by ring
          rw [List.map_cons, List.flatten_cons, harith, ← List.drop_drop,
            List.drop_left' hlr, ih j (fun x hx => hlen x (List.mem_cons_of_mem r hx)),
            List.drop_succ_cons]

lemma flatten_rows_drop_take (w : Nat) (rows : List (List Char)) (j : Nat)
    (hlen : ∀ r ∈ rows, r.length = w) (hj : j < rows.length) :
    (((rows.map (fun r => r ++ ['|'])).flatten).drop (j * (w + 1))).take w =
      rows.getD j [] := by
  rw [flatten_rows_drop w rows j hlen, List.drop_eq_getElem_cons hj,
    List.map_cons, List.flatten_cons, List.append_assoc,
    List.take_left' (hlen _ (List.getElem_mem hj)),
    List.getD_eq_getElem _ _ hj]

lemma filterMap_if_eq_map {α β : Type} (p : α → Prop) [DecidablePred p]
    (g : α → β) :
    ∀ l : List α, (∀ a ∈ l, p a) →
      l.filterMap (fun a => if p a then some (g a) else none) = l.map g := by
  intro l
  induction l with
  | nil => intro; rfl
  | cons x t ih =>
      intro hall
      have hx : (if p x then some (g x) else none) = some (g x) :=
        if_pos (hall x (List.mem_cons_self x t))
      simp only [List.filterMap_cons, hx, List.map_cons]
      rw [ih (fun a ha => hall a (List.mem_cons_of_mem x ha))]

lemma renderFrame_encFrameRows (w h : Nat) (rows : List (List Char))
    (hw : 1 ≤ w) (hh : rows.length = h) (h1 : 1 ≤ h)
    (hlen : ∀ r ∈ rows, r.length = w) :
    renderFrame w h (encFrameRows rows) = rows := by
  have hne : rows ≠ [] := by
    intro hcontra
    rw [hcontra] at hh
    simp at hh
    omega
  rw [encFrameRows_eq_flatten rows hne]
  have hlenf : ((rows.map (fun r => r ++ ['|'])).flatten).length = h * (w + 1) := by
    rw [flatten_rows_length w rows hlen, hh]
  unfold renderFrame
  rw [filterMap_if_eq_map _ _ (List.range h) (fun j hj => by
    rw [hlenf]
    exact (Nat.mul_lt_mul_right (Nat.succ_pos w)).mpr (List.mem_range.mp hj))]
  apply List.ext_getElem
  · rw [List.length_map, List.length_range, hh]
  · intro i hi1 hi2
    have hi : i < rows.length := hi2
    rw [List.getElem_map, List.getElem_range]
    have hslice := flatten_rows_drop_take w rows i hlen hi
    rw [List.getD_eq_getElem _ _ hi] at hslice
    exact hslice

lemma getLastD_of_ne_nil {α : Type} {l : List α} (hne : l ≠ []) (d : α) :
    l.getLastD d = l.getLast hne := by
  rw [List.getLastD_eq_getLast?, List.getLast?_eq_getLast l hne]
  rfl

lemma getLastD_append_right {α : Type} (l1 : List α) {l2 : List α}
    (hne : l2 ≠ []) (d : α) : (l1 ++ l2).getLastD d = l2.getLastD d := by
  have hne2 : l1 ++ l2 ≠ [] := by
    intro hcontra
    rcases List.append_eq_nil.mp hcontra with ⟨-, h2⟩
    exact hne h2
  rw [getLastD_of_ne_nil hne2 d, getLastD_of_ne_nil hne d,
    List.getLast_append_of_ne_nil hne]

lemma headD_take {α : Type} (l : List α) (n : Nat) (hn : 0 < n) (d : α) :
    (l.take n).headD d = l.headD d := by
  cases l with
  | nil => simp
  | cons c t =>
      cases n with
      | zero => omega
      | succ n => rfl

lemma encFrameRows_ne_nil (rows : List (List Char)) : encFrameRows rows ≠ [] := by
  unfold encFrameRows
  intro hcontra
  rcases List.append_eq_nil.mp hcontra with ⟨-, h2⟩
  exact List.cons_ne_nil '|' [] h2

lemma pyStrip_encFrameRows (w : Nat) (rows : List (List Char))
    (hw : 1 ≤ w) (hne : rows ≠ [])
    (hlen : ∀ r ∈ rows, r.length = w)
    (hws : ∀ r ∈ rows, ∀ ch ∈ r, isPyWS ch = false) :
    pyStrip (encFrameRows rows) = encFrameRows rows := by
  refine pyStrip_eq_self (encFrameRows_ne_nil rows) ?_ ?_
  · obtain ⟨r0, rest, rfl⟩ := List.exists_cons_of_ne_nil hne
    have hr0 : r0.length = w := hlen r0 (List.mem_cons_self r0 rest)
    obtain ⟨c0, r0t, rfl⟩ := List.exists_cons_of_ne_nil
      (by intro hcontra; rw [hcontra] at hr0; simp at hr0; omega : r0 ≠ [])
    have hhead : (encFrameRows ((c0 :: r0t) :: rest)).headD ' ' = c0 := by
      rw [encFrameRows_eq_flatten _ (List.cons_ne_nil _ _)]
      simp
    rw [hhead]
    exact hws _ (List.mem_cons_self _ _) c0 (List.mem_cons_self c0 r0t)
  · unfold encFrameRows
    rw [getLastD_append_right _ (List.cons_ne_nil '|' []) ' ']
    decide

/-! ## Helper lemmas: header round trip -/

lemma comma_not_mem_natRepr (n : Nat) : ',' ∉ natRepr n := by
  intro hmem
  exact (natRepr_chars hmem).2.2.1 rfl

lemma decodeHeader_encoded (w h rate : Nat) (charset : List Char)
    (hcs : charset ≠ []) (hws : ∀ ch ∈ charset, isPyWS ch = false) :
    decodeHeader (natRepr w ++ [','] ++ natRepr h ++ [','] ++ natRepr rate
        ++ [','] ++ charset) =
      some ((w : Int), (h : Int), (rate : Int)) := by
  obtain ⟨c, t, hct⟩ := List.exists_cons_of_ne_nil (natRepr_ne_nil w)
  have hcmem : c ∈ natRepr w := by rw [hct]; exact List.mem_cons_self c t
  have hne : natRepr w ++ [','] ++ natRepr h ++ [','] ++ natRepr rate
      ++ [','] ++ charset ≠ [] := by
    rw [hct]
    simp
  have hhead : (natRepr w ++ [','] ++ natRepr h ++ [','] ++ natRepr rate
      ++ [','] ++ charset).headD ' ' = c := by
    rw [hct]
    simp [List.cons_append, List.headD_cons]
  have hlast : (natRepr w ++ [','] ++ natRepr h ++ [','] ++ natRepr rate
      ++ [','] ++ charset).getLastD ' ' = charset.getLastD ' ' :=
    getLastD_append_right _ hcs ' '
  have hstrip : pyStrip (natRepr w ++ [','] ++ natRepr h ++ [','] ++ natRepr rate
      ++ [','] ++ charset) =
      natRepr w ++ [','] ++ natRepr h ++ [','] ++ natRepr rate
      ++ [','] ++ charset := by
    refine pyStrip_eq_self hne ?_ ?_
    · rw [hhead]
      simpa using (natRepr_chars hcmem).2.1
    · rw [hlast, getLastD_of_ne_nil hcs]
      exact hws _ (List.getLast_mem hcs)
  have hsplit : splitOnChar ',' (natRepr w ++ [','] ++ natRepr h ++ [','] ++
      natRepr rate ++ [','] ++ charset) =
      natRepr w :: natRepr h :: natRepr rate :: splitOnChar ',' charset := by
    simp only [List.append_assoc, List.singleton_append, List.cons_append,
      List.nil_append]
    rw [splitOnChar_append_sep ',' _ (comma_not_mem_natRepr w),
      splitOnChar_append_sep ',' _ (comma_not_mem_natRepr h),
      splitOnChar_append_sep ',' _ (comma_not_mem_natRepr rate)]
  unfold decodeHeader
  rw [hstrip, hsplit]
  simp only [parseIntList_natRepr]

lemma encFrameRows_headD (w : Nat) (rows : List (List Char)) (hw : 1 ≤ w)
    (hne : rows ≠ []) (hlen : ∀ r ∈ rows, r.length = w) :
    ∃ ch r, r ∈ rows ∧ ch ∈ r ∧ (encFrameRows rows).headD ' ' = ch := by
  obtain ⟨r0, rest, rfl⟩ := List.exists_cons_of_ne_nil hne
  have hr0 : r0.length = w := hlen r0 (List.mem_cons_self r0 rest)
  have hr0ne : r0 ≠ [] := by
    intro hcontra
    rw [hcontra] at hr0
    simp at hr0
    omega
  obtain ⟨c0, r0t, rfl⟩ := List.exists_cons_of_ne_nil hr0ne
  refine ⟨c0, c0 :: r0t, List.mem_cons_self _ _, List.mem_cons_self _ _, ?_⟩
  rw [encFrameRows_eq_flatten _ (List.cons_ne_nil _ _)]
  simp

lemma decodeMovie_cons (hd : List Char) (tl : List (List Char)) :
    decodeMovie (hd :: tl) =
      match decodeHeader hd with
      | none => none
      | some (w, h, r) =>
          some (w, h, r,
            ((tl.map pyStrip).filter (fun l => decide (l ≠ []))).map
              (fun f => renderFrame w.toNat h.toNat f)) := rfl

/-! ## Helper lemmas: stored frame rate -/

lemma storedRate_eq_floor {r : ℚ} (h : 0 ≤ r) :
    storedRate r = Int.floor (min 5 r) := by
  have hmin : (0 : ℚ) ≤ min 5 r := le_min (by norm_num) h
  unfold storedRate pyIntQ
  rw [if_neg (not_lt.mpr hmin)]

/-! ## Claims -/

/-- C1: for every sequence of raw frames read from the source, every worker
count ≥ 1 and every order in which the worker jobs complete (any permutation
of the job indices), the encoded frame lines written to the output file are,
position for position, the `_process_frame` quantizations of the raw frames
in reading order: `compress` collects `future.result()` by iterating the
futures list in submission order, so completion order never reorders the
output. -/
theorem C1_ordered_output (comp : VideoAsciiCompressor) (src : VideoSource)
    (threads maxFrames : Nat) (sched : List Nat)
    (hth : 1 ≤ threads) (hop : src.openedOk = true)
    (hperm : sched.Perm
      (List.range (src.frames.take (min maxFrames src.frameCount)).length))
    (hok : ∀ fr ∈ src.frames.take (min maxFrames src.frameCount),
      exceptIsOk (processFrame comp fr) = true) :
    ∃ lines,
      compressRun comp src threads maxFrames sched =
        some (Except.ok (headerLine comp (storedRate src.fps) :: lines)) ∧
      lines.map Except.ok =
        (src.frames.take (min maxFrames src.frameCount)).map
          (processFrame comp) := by
  obtain ⟨lines, hl, hmap⟩ :=
    awaitAll_all_ok (src.frames.take (min maxFrames src.frameCount))
      (processFrame comp) hok
  refine ⟨lines, ?_, hmap⟩
  rw [compressRun_open comp src threads maxFrames sched hop (by omega),
    poolResults_eq comp _ sched hperm, hl]
  rfl

/-- Witness for C1 at concrete data: two frames, worker jobs completing in
reversed order `[1, 0]`, one worker. -/
theorem C1_ordered_output_witness :
    (1 ≤ 1) ∧ sampleSrc.openedOk = true ∧
    ([1, 0] : List Nat).Perm
      (List.range (sampleSrc.frames.take (min 100 sampleSrc.frameCount)).length) ∧
    (∀ fr ∈ sampleSrc.frames.take (min 100 sampleSrc.frameCount),
      exceptIsOk (processFrame sampleComp fr) = true) ∧
    ∃ lines,
      compressRun sampleComp sampleSrc 1 100 [1, 0] =
        some (Except.ok (headerLine sampleComp (storedRate sampleSrc.fps) :: lines)) ∧
      lines.map Except.ok =
        (sampleSrc.frames.take (min 100 sampleSrc.frameCount)).map
          (processFrame sampleComp) :=
  ⟨le_refl 1, rfl, by decide, by decide,
    C1_ordered_output sampleComp sampleSrc 1 100 [1, 0] (le_refl 1) rfl
      (by decide) (by decide)⟩

/-- C3 counterexample: with a corrupt second frame, `compress` does not
complete the batch with an error marker at that position — the exception
re-raised by `future.result()` aborts the whole call and no output file is
written (the result is the raised error, not a best-effort movie). -/
theorem C3_counterexample :
    compressRun sampleComp badSrc 4 100 [0, 1] =
      some (Except.error "cv2.error: empty frame") ∧
    Option.map exceptIsOk (compressRun sampleComp badSrc 4 100 [0, 1]) =
      some false :=
  ⟨rfl, rfl⟩

/-- C3 amended: if quantization of any frame fails, the exception propagates
out of `compress` when that frame's `future.result()` is collected (earlier
frames having succeeded): the call aborts with that error, and no output is
written. Sibling jobs are not cancelled (the pool runs them to completion),
but their results are discarded. -/
theorem C3_failure_aborts (comp : VideoAsciiCompressor) (src : VideoSource)
    (threads maxFrames : Nat) (sched : List Nat)
    (hth : 1 ≤ threads) (hop : src.openedOk = true)
    (hperm : sched.Perm
      (List.range (src.frames.take (min maxFrames src.frameCount)).length))
    (i : Nat) (e : String)
    (hi : i < (src.frames.take (min maxFrames src.frameCount)).length)
    (hok : ∀ j, j < i → exceptIsOk (processFrame comp
      ((src.frames.take (min maxFrames src.frameCount)).getD j [])) = true)
    (herr : processFrame comp
      ((src.frames.take (min maxFrames src.frameCount)).getD i []) =
        Except.error e) :
    compressRun comp src threads maxFrames sched = some (Except.error e) := by
  rw [compressRun_open comp src threads maxFrames sched hop (by omega),
    poolResults_eq comp _ sched hperm,
    awaitAll_first_error _ (processFrame comp) i e hi hok herr]
  rfl

/-- Witness for the amended C3 at concrete data: the second of two frames is
corrupt, the first succeeds, and compress aborts with the frame error. -/
theorem C3_failure_aborts_witness :
    (1 ≤ 1) ∧ badSrc.openedOk = true ∧
    ([0, 1] : List Nat).Perm
      (List.range (badSrc.frames.take (min 100 badSrc.frameCount)).length) ∧
    1 < (badSrc.frames.take (min 100 badSrc.frameCount)).length ∧
    (∀ j, j < 1 → exceptIsOk (processFrame sampleComp
      ((badSrc.frames.take (min 100 badSrc.frameCount)).getD j [])) = true) ∧
    processFrame sampleComp
      ((badSrc.frames.take (min 100 badSrc.frameCount)).getD 1 []) =
        Except.error "cv2.error: empty frame" ∧
    compressRun sampleComp badSrc 1 100 [0, 1] =
      some (Except.error "cv2.error: empty frame") :=
  ⟨le_refl 1, rfl, by decide, by decide, by decide, rfl,
    C3_failure_aborts sampleComp badSrc 1 100 [0, 1] (le_refl 1) rfl
      (by decide) 1 "cv2.error: empty frame" (by decide) (by decide) rfl⟩

/-- C4 counterexample: constructing a compressor with the single-glyph
charset `['x']` succeeds and stores the charset — `__init__` has no failure
path at all, contradicting the claim that an `InvalidConfig` failure occurs
at construction time. -/
theorem C4_counterexample :
    VideoAsciiCompressor.init 40 20 ['x'] =
      { w := 40, h := 20, chars := ['x'], n_chars := 1 } := rfl

/-- C4 amended: `__init__` performs no validation whatsoever; a charset of
any size (including 1 or even 0) is accepted, and construction merely stores
the parameters and the charset length. -/
theorem C4_no_validation (width height : Nat) (charset : List Char) :
    (VideoAsciiCompressor.init width height charset).chars = charset ∧
      (VideoAsciiCompressor.init width height charset).n_chars =
        charset.length :=
  ⟨rfl, rfl⟩

/-- C2: for every luminance sample v in [0, 255] and charset size k ≥ 2,
the quantizer computes the index as the floor of v·(k-1)/255 clamped to
[0, k-1]; the result always lies in [0, k-1], with v = 0 mapping to index 0
and v = 255 to index k-1 (a black or white frame yields one repeated glyph,
never an out-of-range index). -/
theorem C2_quant_range (v k : Nat) (hv : v ≤ 255) (hk : 2 ≤ k) :
    quantIndex k v = min (v * (k - 1) / 255) (k - 1) ∧
      0 ≤ quantIndex k v ∧ quantIndex k v ≤ k - 1 ∧
      quantIndex k 0 = 0 ∧ quantIndex k 255 = k - 1 := by
  refine ⟨rfl, Nat.zero_le _, min_le_right _ _, ?_, ?_⟩
  · unfold quantIndex
    simp
  · unfold quantIndex
    rw [Nat.mul_div_cancel_left (k - 1) (by norm_num : 0 < 255), min_self]

/-- Witness for C2 at v = 128, k = 4. -/
theorem C2_quant_range_witness :
    128 ≤ 255 ∧ 2 ≤ 4 ∧
      (quantIndex 4 128 = min (128 * (4 - 1) / 255) (4 - 1) ∧
        0 ≤ quantIndex 4 128 ∧ quantIndex 4 128 ≤ 4 - 1 ∧
        quantIndex 4 0 = 0 ∧ quantIndex 4 255 = 4 - 1) :=
  ⟨by decide, by decide, C2_quant_range 128 4 (by decide) (by decide)⟩

/-- C5 counterexample: for the native rate r = 7/2 fps the header stores
`int(min(5, 3.5)) = 3`, which is not `min(5, r) = 3.5`: the stored rate is
the truncation of the capped rate, not the capped rate itself. -/
theorem C5_counterexample :
    ¬ ((storedRate (7/2) : ℚ) = min 5 ((7 : ℚ)/2)) := by
  have h1 : storedRate (7/2) = 3 := by
    rw [storedRate_eq_floor (by norm_num),
      min_eq_right (by norm_num : (7/2 : ℚ) ≤ 5)]
    norm_num
  rw [h1, min_eq_right (by norm_num : (7/2 : ℚ) ≤ 5)]
  norm_num

/-- C5 amended: for every non-negative native rate r, the stored header rate
equals ⌊min(5, r)⌋ (the `int()` truncation of the capped rate); it equals
min(5, r) itself exactly when r is a whole number of frames per second (and
in particular whenever r ≥ 5). -/
theorem C5_rate_floor (r : ℚ) (h : 0 ≤ r) :
    storedRate r = Int.floor (min 5 r) ∧
      (∀ n : Nat, r = (n : ℚ) → ((storedRate r : ℤ) : ℚ) = min 5 (n : ℚ)) := by
  refine ⟨storedRate_eq_floor h, ?_⟩
  intro n hn
  subst hn
  rw [storedRate_eq_floor h]
  have h2 : min (5 : ℚ) ((n : ℕ) : ℚ) = ((min 5 n : ℕ) : ℚ) := by
    push_cast
    rfl
  rw [h2, Int.floor_natCast]
  push_cast
  rfl

/-- Witness for the amended C5 at r = 30 (a native 30 fps source stores
rate 5). -/
theorem C5_rate_floor_witness :
    (0 : ℚ) ≤ 30 ∧
      (storedRate 30 = Int.floor (min 5 (30 : ℚ)) ∧
        (∀ n : Nat, (30 : ℚ) = (n : ℚ) →
          ((storedRate 30 : ℤ) : ℚ) = min 5 (n : ℚ))) :=
  ⟨by norm_num, C5_rate_floor 30 (by norm_num)⟩

/-- C9 counterexample: a source reporting a native rate of 1/2 fps is
accepted by the compressor (compress succeeds and writes a file), yet the
stored header rate is 0 — not a positive integer — so the player's frame
delay 1/frameRate is a division by zero. -/
theorem C9_counterexample :
    storedRate halfRateSrc.fps = 0 ∧
    compressRun sampleComp halfRateSrc 1 1 [0] =
      some (Except.ok [headerLine sampleComp 0, ['a', '|']]) := by
  have hrate : storedRate halfRateSrc.fps = 0 := by
    show storedRate (1/2) = 0
    rw [storedRate_eq_floor (by norm_num),
      min_eq_right (by norm_num : (1/2 : ℚ) ≤ 5)]
    norm_num
  refine ⟨hrate, ?_⟩
  rw [compressRun_open sampleComp halfRateSrc 1 1 [0] rfl (by omega), hrate]
  rfl

/-- C9 amended: for every non-negative native rate the stored header rate is
at most 5, and it is positive provided the native rate is at least 1 frame
per second; for native rates below 1 fps the stored rate is 0 and the
player's delay computation divides by zero. -/
theorem C9_rate_bounds (r : ℚ) (h : 0 ≤ r) :
    storedRate r ≤ 5 ∧ (1 ≤ r → 1 ≤ storedRate r) := by
  rw [storedRate_eq_floor h]
  constructor
  · have hmin : min (5 : ℚ) r ≤ 5 := min_le_left _ _
    have h5 : (⌊(5 : ℚ)⌋ : ℤ) = 5 := by norm_num
    exact h5 ▸ Int.floor_le_floor hmin
  · intro h1
    have hmin : (1 : ℚ) ≤ min 5 r := le_min (by norm_num) h1
    exact Int.le_floor.mpr (by exact_mod_cast hmin)

/-- Witness for the amended C9 at r = 3. -/
theorem C9_rate_bounds_witness :
    (0 : ℚ) ≤ 3 ∧ (storedRate 3 ≤ 5 ∧ (1 ≤ (3 : ℚ) → 1 ≤ storedRate 3)) :=
  ⟨by norm_num, C9_rate_bounds 3 (by norm_num)⟩

/-- C6 counterexample: a header line with only 3 comma-separated fields
("40,20,5", no charset field) decodes successfully — the player never
parses a fourth field — contradicting the claim that fewer than 4 fields
makes decoding fail. -/
theorem C6_counterexample :
    decodeHeader ['4', '0', ',', '2', '0', ',', '5'] = some (40, 20, 5) := by
  decide

/-- C6 amended: header decoding fails (uncaught IndexError/ValueError;
there is no named MalformedHeader) exactly when the stripped first line
has fewer than 3 comma-separated fields, or one of the first three fields
is not an integer literal; the fourth (charset) field is never parsed, so
a 3-field header is accepted. -/
theorem C6_header_parse_iff (line : List Char) :
    decodeHeader line = none ↔
      ((splitOnChar ',' (pyStrip line)).length < 3 ∨
        ∃ i, i < 3 ∧
          parseIntList ((splitOnChar ',' (pyStrip line)).getD i []) = none) := by
  unfold decodeHeader
  rcases hf : splitOnChar ',' (pyStrip line) with - | ⟨a, - | ⟨b, - | ⟨c, rest⟩⟩⟩
  · simp
  · simp
  · simp
  · cases hpa : parseIntList a with
    | none =>
        constructor
        · intro _
          exact Or.inr ⟨0, by omega, by simpa using hpa⟩
        · intro _
          simp [hpa]
    | some w =>
        cases hpb : parseIntList b with
        | none =>
            constructor
            · intro _
              exact Or.inr ⟨1, by omega, by simpa using hpb⟩
            · intro _
              simp [hpa, hpb]
        | some h =>
            cases hpc : parseIntList c with
            | none =>
                constructor
                · intro _
                  exact Or.inr ⟨2, by omega, by simpa using hpc⟩
                · intro _
                  simp [hpa, hpb, hpc]
            | some r =>
                constructor
                · intro hcontra
                  simp [hpa, hpb, hpc] at hcontra
                · rintro (hlen | ⟨i, hi, hp⟩)
                  · simp at hlen
                    omega
                  · interval_cases i <;> simp_all

/-- C7 counterexample: with the charset made of a space and "x" (size 2,
no row delimiter in it) a 1x1 movie whose single cell is the space glyph
does not round-trip: the player strips each line, so the leading space of
the encoded frame " |" is removed and the decoded cell is the delimiter
"|", not the space that was encoded. -/
theorem C7_counterexample :
    decodeMovie (encodeFile 1 1 5 [' ', 'x'] [[[' ']]]) =
      some (1, 1, 5, [[['|']]]) ∧
    decodeMovie (encodeFile 1 1 5 [' ', 'x'] [[[' ']]]) ≠
      some (1, 1, 5, [[[' ']]]) := by
  refine ⟨rfl, ?_⟩
  intro hcontra
  have h1 : decodeMovie (encodeFile 1 1 5 [' ', 'x'] [[[' ']]]) =
      some (1, 1, 5, [[['|']]]) := rfl
  rw [h1] at hcontra
  simp at hcontra

/-- C7 amended: the round trip decode(encode(movie)) = movie holds for the
header fields and all frame grids, for any grid dimensions ≥ 1x1 and any
charset of size ≥ 2 that contains neither the row delimiter nor any
whitespace character (the extra whitespace condition is forced by the
player's per-line strip()). -/
theorem C7_roundtrip (w h rate : Nat) (charset : List Char)
    (grids : List (List (List Char)))
    (hw : 1 ≤ w) (hh : 1 ≤ h) (hcs : 2 ≤ charset.length)
    (hbar : '|' ∉ charset) (hws : ∀ ch ∈ charset, isPyWS ch = false)
    (hg : ∀ g ∈ grids, g.length = h ∧
      ∀ row ∈ g, row.length = w ∧ ∀ ch ∈ row, ch ∈ charset) :
    decodeMovie (encodeFile w h rate charset grids) =
      some ((w : Int), (h : Int), (rate : Int), grids) := by
  have hcsne : charset ≠ [] := by
    intro hcontra
    rw [hcontra] at hcs
    simp at hcs
  have hgne : ∀ g ∈ grids, g ≠ [] := by
    intro g hgmem hcontra
    have := (hg g hgmem).1
    rw [hcontra] at this
    simp at this
    omega
  have hglen : ∀ g ∈ grids, ∀ r ∈ g, r.length = w :=
    fun g hgmem r hr => ((hg g hgmem).2 r hr).1
  have hgws : ∀ g ∈ grids, ∀ r ∈ g, ∀ ch ∈ r, isPyWS ch = false :=
    fun g hgmem r hr ch hch => hws ch (((hg g hgmem).2 r hr).2 ch hch)
  have hstripmap : (grids.map encFrameRows).map pyStrip = grids.map encFrameRows := by
    rw [List.map_map]
    exact List.map_congr_left (fun g hgmem =>
      pyStrip_encFrameRows w g hw (hgne g hgmem) (hglen g hgmem) (hgws g hgmem))
  have hfilter : (grids.map encFrameRows).filter (fun l => decide (l ≠ [])) =
      grids.map encFrameRows := by
    rw [List.filter_eq_self]
    intro a ha
    obtain ⟨g, -, rfl⟩ := List.mem_map.mp ha
    simp [encFrameRows_ne_nil]
  have hrender : (grids.map encFrameRows).map (renderFrame w h) = grids := by
    rw [List.map_map]
    have hid : ∀ g ∈ grids, (renderFrame w h ∘ encFrameRows) g = id g :=
      fun g hgmem => renderFrame_encFrameRows w h g hw ((hg g hgmem).1)
        hh (hglen g hgmem)
    rw [List.map_congr_left hid, List.map_id]
  unfold encodeFile
  rw [decodeMovie_cons, decodeHeader_encoded w h rate charset hcsne hws]
  simp only [Int.toNat_natCast, hstripmap, hfilter, hrender]

/-- Witness for the amended C7: a 2x2 movie over the charset "ab" with two
frames round-trips exactly. -/
theorem C7_roundtrip_witness :
    (1 ≤ 2) ∧ (1 ≤ 2) ∧ (2 ≤ (['a', 'b'] : List Char).length) ∧
    ('|' ∉ (['a', 'b'] : List Char)) ∧
    (∀ ch ∈ (['a', 'b'] : List Char), isPyWS ch = false) ∧
    (∀ g ∈ [[['a', 'b'], ['b', 'a']], [['b', 'b'], ['a', 'a']]],
      g.length = 2 ∧ ∀ row ∈ g, row.length = 2 ∧
        ∀ ch ∈ row, ch ∈ (['a', 'b'] : List Char)) ∧
    decodeMovie (encodeFile 2 2 5 ['a', 'b']
        [[['a', 'b'], ['b', 'a']], [['b', 'b'], ['a', 'a']]]) =
      some (2, 2, 5, [[['a', 'b'], ['b', 'a']], [['b', 'b'], ['a', 'a']]]) :=
  ⟨by decide, by decide, by decide, by decide, by decide, by decide,
    C7_roundtrip 2 2 5 ['a', 'b'] [[['a', 'b'], ['b', 'a']], [['b', 'b'], ['a', 'a']]]
      (by decide) (by decide) (by decide) (by decide) (by decide) (by decide)⟩

/-- C8: decoding is lenient for a truncated trailing row.  For any frame of
h ≥ 1 rows of width w ≥ 3 whose encoded line is cut 3 characters short, the
player still renders exactly h rows: the first h-1 rows in full, and the
last row read up to its available length (w-2 glyphs) — no error occurs. -/
theorem C8_truncated_row (w h : Nat) (rows : List (List Char))
    (hw : 3 ≤ w) (h1 : 1 ≤ h) (hh : rows.length = h)
    (hlen : ∀ r ∈ rows, r.length = w)
    (hws : ∀ r ∈ rows, ∀ ch ∈ r, isPyWS ch = false) :
    renderFrame w h (pyStrip ((encFrameRows rows).take (h * (w + 1) - 3))) =
      rows.dropLast ++ [(rows.getLastD []).take (w - 2)] ∧
    (renderFrame w h
      (pyStrip ((encFrameRows rows).take (h * (w + 1) - 3)))).length = h := by
  have hne : rows ≠ [] := by
    intro hc
    rw [hc] at hh
    simp at hh
    omega
  have hlastmem : rows.getLast hne ∈ rows := List.getLast_mem hne
  have hlastlen : (rows.getLast hne).length = w := hlen _ hlastmem
  have hgld : rows.getLastD [] = rows.getLast hne := getLastD_of_ne_nil hne []
  have hdlmem : ∀ r ∈ rows.dropLast, r ∈ rows := by
    intro r hr
    have hx := List.mem_append_left [rows.getLast hne] hr
    rwa [List.dropLast_append_getLast hne] at hx
  have hdll : rows.dropLast.length = h - 1 := by
    rw [List.length_dropLast, hh]
  have hmul : h * (w + 1) = (h - 1) * (w + 1) + (w + 1) := by
    cases h with
    | zero => omega
    | succ hp => simp [Nat.succ_mul]
  have harith : h * (w + 1) - 3 = (h - 1) * (w + 1) + (w - 2) := by omega
  have hAlen : ((rows.dropLast.map (fun r => r ++ ['|'])).flatten).length =
      (h - 1) * (w + 1) := by
    rw [flatten_rows_length w _ (fun r hr => hlen r (hdlmem r hr)), hdll]
  have hA : encFrameRows rows =
      (rows.dropLast.map (fun r => r ++ ['|'])).flatten ++
        (rows.getLast hne ++ ['|']) := by
    rw [encFrameRows_eq_flatten rows hne]
    conv_lhs => rw [← List.dropLast_append_getLast hne]
    rw [List.map_append, List.flatten_append]
    simp
  have hBne : (rows.getLast hne).take (w - 2) ≠ [] := by
    rw [← List.length_pos, List.length_take, hlastlen]
    omega
  have hBlen : ((rows.getLast hne).take (w - 2)).length = w - 2 := by
    rw [List.length_take, hlastlen]
    omega
  have htrunc : (encFrameRows rows).take (h * (w + 1) - 3) =
      (rows.dropLast.map (fun r => r ++ ['|'])).flatten ++
        (rows.getLast hne).take (w - 2) := by
    rw [hA, harith, List.take_append_eq_append_take, hAlen,
      List.take_of_length_le (by rw [hAlen]; omega),
      show (h - 1) * (w + 1) + (w - 2) - ((h - 1) * (w + 1)) = w - 2 from by omega,
      List.take_append_eq_append_take, hlastlen,
      show w - 2 - w = 0 from by omega, List.take_zero, List.append_nil]
  have hTpos : 0 < h * (w + 1) - 3 := by omega
  have hstrip : pyStrip ((encFrameRows rows).take (h * (w + 1) - 3)) =
      (encFrameRows rows).take (h * (w + 1) - 3) := by
    refine pyStrip_eq_self ?_ ?_ ?_
    · rw [htrunc]
      exact List.append_ne_nil_of_right_ne_nil _ hBne
    · rw [headD_take _ _ hTpos]
      obtain ⟨ch, r, hrmem, hchmem, hchd⟩ :=
        encFrameRows_headD w rows (by omega) hne hlen
      rw [hchd]
      exact hws r hrmem ch hchmem
    · rw [htrunc, getLastD_append_right _ hBne ' ', getLastD_of_ne_nil hBne,
        List.getLast_eq_getElem, List.getElem_take]
      exact hws _ hlastmem _ (List.getElem_mem _)
  have hTle : h * (w + 1) - 3 ≤ (encFrameRows rows).length := by
    rw [encFrameRows_eq_flatten rows hne, flatten_rows_length w rows hlen, hh]
    omega
  have hLlen : ((encFrameRows rows).take (h * (w + 1) - 3)).length =
      h * (w + 1) - 3 := by
    rw [List.length_take]
    omega
  have hcond : ∀ j ∈ List.range h,
      j * (w + 1) < ((encFrameRows rows).take (h * (w + 1) - 3)).length := by
    intro j hj
    rw [hLlen, harith]
    have hj2 : j < h := List.mem_range.mp hj
    have hle : j * (w + 1) ≤ (h - 1) * (w + 1) :=
      Nat.mul_le_mul_right (w + 1) (by omega)
    omega
  have heq : renderFrame w h
      (pyStrip ((encFrameRows rows).take (h * (w + 1) - 3))) =
      rows.dropLast ++ [(rows.getLastD []).take (w - 2)] := by
    rw [hstrip]
    unfold renderFrame
    rw [filterMap_if_eq_map
      (fun j => j * (w + 1) < ((encFrameRows rows).take (h * (w + 1) - 3)).length)
      (fun j => (((encFrameRows rows).take (h * (w + 1) - 3)).drop
        (j * (w + 1))).take w)
      (List.range h) hcond]
    have hrange : List.range h = List.range (h - 1) ++ [h - 1] := by
      conv_lhs => rw [show h = h - 1 + 1 from by omega]
      rw [List.range_succ]
    rw [hrange, hgld]
    simp only [List.map_append, List.map_cons, List.map_nil]
    congr 1
    · apply List.ext_getElem
      · rw [List.length_map, List.length_range, List.length_dropLast, hh]
      · intro i hi1 hi2
        simp only [List.getElem_map, List.getElem_range]
        have hilt : i < h - 1 := by
          rw [List.length_map, List.length_range] at hi1
          exact hi1
        rw [htrunc, List.drop_append_eq_append_drop, hAlen]
        have hle2 : i * (w + 1) + (w + 1) ≤ (h - 1) * (w + 1) := by
          have hstep := Nat.mul_le_mul_right (w + 1)
            (show i + 1 ≤ h - 1 from by omega)
          rwa [Nat.succ_mul] at hstep
        rw [show i * (w + 1) - (h - 1) * (w + 1) = 0 from by omega,
          List.drop_zero, List.take_append_eq_append_take, List.length_drop,
          hAlen, show w - ((h - 1) * (w + 1) - i * (w + 1)) = 0 from by omega,
          List.take_zero, List.append_nil]
        have hslice := flatten_rows_drop_take w rows.dropLast i
          (fun r hr => hlen r (hdlmem r hr)) (by rw [hdll]; exact hilt)
        rw [hslice, List.getD_eq_getElem _ _ (by rw [hdll]; exact hilt)]
    · congr 1
      rw [htrunc, List.drop_append_eq_append_drop, hAlen,
        List.drop_eq_nil_of_le hAlen.le, Nat.sub_self, List.drop_zero,
        List.nil_append, List.take_of_length_le (by rw [hBlen]; omega)]
  refine ⟨heq, ?_⟩
  rw [heq, List.length_append, List.length_dropLast, hh]
  simp
  omega

/-- Witness for C8: a 2-row, 3-wide frame "abc|def|" truncated by 3
characters to "abc|d" renders as the full first row and the one-glyph last
row "d". -/
theorem C8_truncated_row_witness :
    3 ≤ 3 ∧ 1 ≤ 2 ∧ ([['a', 'b', 'c'], ['d', 'e', 'f']] : List (List Char)).length = 2 ∧
    (∀ r ∈ ([['a', 'b', 'c'], ['d', 'e', 'f']] : List (List Char)), r.length = 3) ∧
    (∀ r ∈ ([['a', 'b', 'c'], ['d', 'e', 'f']] : List (List Char)),
      ∀ ch ∈ r, isPyWS ch = false) ∧
    (renderFrame 3 2 (pyStrip ((encFrameRows [['a', 'b', 'c'], ['d', 'e', 'f']]).take
        (2 * (3 + 1) - 3))) =
      ([['a', 'b', 'c'], ['d', 'e', 'f']] : List (List Char)).dropLast ++
        [(([['a', 'b', 'c'], ['d', 'e', 'f']] : List (List Char)).getLastD []).take (3 - 2)] ∧
      (renderFrame 3 2 (pyStrip ((encFrameRows [['a', 'b', 'c'], ['d', 'e', 'f']]).take
        (2 * (3 + 1) - 3)))).length = 2) :=
  ⟨by decide, by decide, by decide, by decide, by decide,
    C8_truncated_row 3 2 [['a', 'b', 'c'], ['d', 'e', 'f']]
      (by decide) (by decide) (by decide) (by decide) (by decide)⟩

lemma decodeHeader_take3 (line1 line2 : List Char)
    (hf : (splitOnChar ',' (pyStrip line1)).take 3 =
      (splitOnChar ',' (pyStrip line2)).take 3) :
    decodeHeader line1 = decodeHeader line2 := by
  unfold decodeHeader
  rcases h1 : splitOnChar ',' (pyStrip line1) with - | ⟨a, - | ⟨b, - | ⟨c, rest⟩⟩⟩ <;>
    rcases h2 : splitOnChar ',' (pyStrip line2) with - | ⟨a2, - | ⟨b2, - | ⟨c2, rest2⟩⟩⟩ <;>
    rw [h1, h2] at hf <;> simp_all

/-- C10: playback output is independent of the header's fourth (charset)
field: the player parses only width, height and frame rate and renders the
glyphs from the frame lines, so two container files with the same first
three header fields and the same frame lines produce identical output. -/
theorem C10_charset_independent (hd1 hd2 : List Char) (tl : List (List Char))
    (hf : (splitOnChar ',' (pyStrip hd1)).take 3 =
      (splitOnChar ',' (pyStrip hd2)).take 3) :
    playOutput (hd1 :: tl) = playOutput (hd2 :: tl) := by
  have hdh : decodeHeader hd1 = decodeHeader hd2 := decodeHeader_take3 hd1 hd2 hf
  unfold playOutput
  rw [decodeMovie_cons, decodeMovie_cons, hdh]

/-- Witness for C10: two one-frame files identical except that the charset
field is "ab" in one and "xy" in the other play back identically. -/
theorem C10_charset_independent_witness :
    ((splitOnChar ',' (pyStrip ['1', ',', '1', ',', '5', ',', 'a', 'b'])).take 3 =
      (splitOnChar ',' (pyStrip ['1', ',', '1', ',', '5', ',', 'x', 'y'])).take 3) ∧
    playOutput (['1', ',', '1', ',', '5', ',', 'a', 'b'] :: [['a', '|']]) =
      playOutput (['1', ',', '1', ',', '5', ',', 'x', 'y'] :: [['a', '|']]) :=
  ⟨by decide, C10_charset_independent _ _ _ (by decide)⟩

end Nezha
